import Mathlib

/-!
Shallow embedding of the layer-data decoding pipeline of `arcade/tiled.py`
(the Tiled TMX/TSX map parser), together with proofs checking the
natural-language specification of the repository against the code.

Conventions of the embedding:
* A Python `str` that is manipulated character-by-character (sliced, split,
  iterated) is modelled as `List Char`; strings that are only compared for
  equality (encoding/compression tags, error messages) are Lean `String`s.
* Python `bytes` are `List Nat`, each entry intended `< 256`.
* A Python function that can raise is modelled as returning `Except PyErr α`.
  `PyErr` has one constructor per exception class the source can actually
  raise on the modelled paths: the built-ins `ValueError` and
  `ZeroDivisionError`, plus the module's own exception classes
  (`tiled.py` declares exactly `EncodingError`, `TileNotFoundError` and
  `ImageNotFoundError`; it declares no `MalformedLayerDataError`,
  `UnsupportedCompressionError` or `ColorFormatError`).
* The stdlib collaborators `base64.b64decode`, `zlib.decompress` and
  `gzip.decompress` (external to the repository) are parameters of the
  functions that call them, exactly at their call sites in the source.
-/

/-- Exception values raised by the modelled code paths of `tiled.py`.
The payload of `valueError` is the message (for `int(...)` failures, the
offending literal). -/
inductive PyErr where
  | valueError (msg : String)
  | zeroDivisionError
  | encodingError (msg : String)
  | tileNotFoundError (msg : String)
  deriving DecidableEq, Repr

/-- Value of a hexadecimal digit, as Python's `int(_, 16)` understands
digits (case-insensitive); 0 for non-digits (never reached on the paths
where it is used behind `isHexDigitChar`). -/
def hexDigitVal (c : Char) : Nat :=
  if '0' ≤ c ∧ c ≤ '9' then c.toNat - '0'.toNat
  else if 'a' ≤ c ∧ c ≤ 'f' then c.toNat - 'a'.toNat + 10
  else if 'A' ≤ c ∧ c ≤ 'F' then c.toNat - 'A'.toNat + 10
  else 0

/-- Whether `c` is a hexadecimal digit accepted by Python's `int(_, 16)`. -/
def isHexDigitChar (c : Char) : Bool :=
  (('0' ≤ c ∧ c ≤ '9') ∨ ('a' ≤ c ∧ c ≤ 'f') ∨ ('A' ≤ c ∧ c ≤ 'F') : Prop)

/-- Numeric value of a string of hexadecimal digits (most significant
first), as computed by Python's `int(s, 16)` on a digit-only literal. -/
def hexVal (cs : List Char) : Nat :=
  cs.foldl (fun a c => 16 * a + hexDigitVal c) 0

/-- Model of Python `int(s, 16)` restricted to the shapes that occur in
`tiled.py` (bare digit strings): succeeds on a non-empty all-hex-digit
string, raises `ValueError` otherwise (in particular on the empty string
produced by an out-of-range slice).  Sign prefixes, whitespace and `0x`
prefixes never occur at the call sites and are treated as `ValueError`. -/
def pyIntHex (cs : List Char) : Except PyErr Nat :=
  if cs.isEmpty then
    .error (.valueError ("invalid literal for int() with base 16: " ++ String.mk cs))
  else if cs.all isHexDigitChar then
    .ok (hexVal cs)
  else
    .error (.valueError ("invalid literal for int() with base 16: " ++ String.mk cs))

/-- Whether `c` is a decimal digit. -/
def isDecDigitChar (c : Char) : Bool :=
  ('0' ≤ c ∧ c ≤ '9' : Prop)

/-- Numeric value of a string of decimal digits, most significant first. -/
def decVal (cs : List Char) : Nat :=
  cs.foldl (fun a c => 10 * a + (c.toNat - '0'.toNat)) 0

/-- Model of Python `int(s)` restricted to the shapes relevant to CSV layer
data: an optional leading `-` followed by a non-empty run of decimal
digits; anything else raises `ValueError`.  (Whitespace tolerance and `+`
signs never occur in Tiled CSV payloads and are treated as `ValueError`.) -/
def pyIntDec (cs : List Char) : Except PyErr Int :=
  match cs with
  | '-' :: ds =>
      if ds.isEmpty then
        .error (.valueError ("invalid literal for int() with base 10: " ++ String.mk cs))
      else if ds.all isDecDigitChar then
        .ok (-(decVal ds : Int))
      else
        .error (.valueError ("invalid literal for int() with base 10: " ++ String.mk cs))
  | ds =>
      if ds.isEmpty then
        .error (.valueError ("invalid literal for int() with base 10: " ++ String.mk cs))
      else if ds.all isDecDigitChar then
        .ok ((decVal ds : Int))
      else
        .error (.valueError ("invalid literal for int() with base 10: " ++ String.mk cs))

/-- Python slice `s[a:b]` on a string modelled as `List Char`. -/
def pySlice (s : List Char) (a b : Nat) : List Char :=
  (s.drop a).take (b - a)

/-- Python `s.split(sep)` for a one-character separator: splits at every
occurrence, keeping empty fragments, so `"".split(sep) = [""]` and a
trailing separator yields a trailing empty fragment. -/
def pySplit (sep : Char) : List Char → List (List Char)
  | [] => [[]]
  | c :: rest =>
      match pySplit sep rest with
      | [] => [[]]
      | grp :: grps => if c = sep then [] :: grp :: grps else (c :: grp) :: grps

/-- Net effect of the source's `while '' in line_list: line_list.remove('')`
loop: removing the first empty string until none remains deletes exactly
the empty strings, preserving the order of the rest. -/
def pyRemoveEmpties : List (List Char) → List (List Char)
  | [] => []
  | s :: rest => if s = [] then pyRemoveEmpties rest else s :: pyRemoveEmpties rest

/-! ### ColorCodec: `_parse_color` (tiled.py lines 51–74) -/

/-- Embedding of `tiled.Color` (a `NamedTuple` of four ints). -/
structure Color where
  red : Nat
  green : Nat
  blue : Nat
  alpha : Nat
  deriving DecidableEq, Repr

/-- Embedding of `tiled._parse_color`.  Faithful to the source: strip the
first character when the length is odd (`if not len(color) % 2 == 0`),
then branch on `len(color) == 6`; the else-branch reads the slices
`[0:2] [2:4] [4:6] [6:8]` as `AARRGGBB` whatever the length is — the
source performs no other length validation. -/
def _parse_color (color0 : List Char) : Except PyErr Color :=
  let color := if color0.length % 2 ≠ 0 then color0.drop 1 else color0
  if color.length = 6 then do
    let red ← pyIntHex (pySlice color 0 2)
    let green ← pyIntHex (pySlice color 2 4)
    let blue ← pyIntHex (pySlice color 4 6)
    .ok ⟨red, green, blue, 0xFF⟩
  else do
    let alpha ← pyIntHex (pySlice color 0 2)
    let red ← pyIntHex (pySlice color 2 4)
    let green ← pyIntHex (pySlice color 4 6)
    let blue ← pyIntHex (pySlice color 6 8)
    .ok ⟨red, green, blue, alpha⟩

/-! ### LayerDataDecoder, CSV path: `_decode_csv_layer` (lines 508–518) -/

/-- Monadic map over `Except`, modelling a Python loop that appends one
result per element and propagates a raised exception. -/
def mapExcept (f : α → Except PyErr β) : List α → Except PyErr (List β)
  | [] => .ok []
  | a :: as => do
      let b ← f a
      let bs ← mapExcept f as
      .ok (b :: bs)

/-- Embedding of `tiled._decode_csv_layer`: split the payload on newline,
and for **every** line (the source iterates over all of `lines`, empty or
not) split on comma, remove empty tokens, parse each remaining token with
`int(...)`, and append the resulting row.  A raised `ValueError` from
`int(...)` aborts the whole call, which `mapExcept` models. -/
def _decode_csv_layer (data_text : List Char) : Except PyErr (List (List Int)) :=
  mapExcept (fun line => mapExcept pyIntDec (pyRemoveEmpties (pySplit ',' line)))
    (pySplit '\n' data_text)

/-! ### LayerDataDecoder, base64 path: `_decode_base64_data` (lines 521–552) -/

/-- Loop state of the byte-to-integer loop of `_decode_base64_data`
(local variables `byte_count`, `int_count`, `int_value`, `row_count`,
`tile_grid`).  The source keeps `row_count` always equal to
`tile_grid`'s last index, appending integers via
`tile_grid[row_count].append(int_value)`. -/
structure DecodeState where
  byte_count : Nat
  int_count : Nat
  int_value : Nat
  row_count : Nat
  tile_grid : List (List Nat)
  deriving Repr

/-- Python `grid[i].append(v)`: append `v` to the `i`-th row in place. -/
def appendAtRow : List (List Nat) → Nat → Nat → List (List Nat)
  | [], _, _ => []
  | r :: rs, 0, v => (r ++ [v]) :: rs
  | r :: rs, i + 1, v => r :: appendAtRow rs i v

/-- One iteration of `for byte in unzipped_data` in `_decode_base64_data`.
Faithful to the source: add `byte << (byte_count * 8)` into `int_value`,
bump `byte_count`; on every fourth byte reset `byte_count`, bump
`int_count`, append the finished integer to row `row_count`, and when
`int_count % layer_width == 0` close the row and speculatively append an
empty one.  Python's `%` raises `ZeroDivisionError` when
`layer_width == 0`. -/
def decodeStep (layer_width : Nat) (s : DecodeState) (byte : Nat) :
    Except PyErr DecodeState :=
  let int_value := s.int_value + (byte <<< (s.byte_count * 8))
  let byte_count := s.byte_count + 1
  if byte_count % 4 = 0 then
    let int_count := s.int_count + 1
    let tile_grid := appendAtRow s.tile_grid s.row_count int_value
    if layer_width = 0 then
      .error .zeroDivisionError
    else if int_count % layer_width = 0 then
      .ok ⟨0, int_count, 0, s.row_count + 1, tile_grid ++ [[]]⟩
    else
      .ok ⟨0, int_count, 0, s.row_count, tile_grid⟩
  else
    .ok ⟨byte_count, s.int_count, int_value, s.row_count, s.tile_grid⟩

/-- The `for byte in unzipped_data` loop, threading `DecodeState`. -/
def decodeLoop (layer_width : Nat) : DecodeState → List Nat → Except PyErr DecodeState
  | s, [] => .ok s
  | s, b :: bs => do
      let s' ← decodeStep layer_width s b
      decodeLoop layer_width s' bs

/-- Byte-to-grid phase of `_decode_base64_data`: run the loop from the
initial state (`tile_grid = [[]]`, all counters 0) and finish with
`tile_grid.pop()` (drop the last row), returning the remaining rows. -/
def decodeBytesToGrid (unzipped_data : List Nat) (layer_width : Nat) :
    Except PyErr (List (List Nat)) := do
  let s ← decodeLoop layer_width ⟨0, 0, 0, 0, [[]]⟩ unzipped_data
  .ok s.tile_grid.dropLast

/-- Embedding of `tiled._decode_base64_data`.  The stdlib collaborators are
parameters: `b64decode` models `base64.b64decode`, `zlibDecompress` models
`zlib.decompress`, `gzipDecompress` models `gzip.decompress` (the source
calls them without importing the modules — the embedding gives the calls
their stdlib meaning).  Dispatch order mirrors the source:
`"zlib"`, then `"gzip"`, then `compression is None`, then
`raise ValueError(f"Unsupported compression type '{compression}'.")`
(the module defines no `UnsupportedCompressionError` class). -/
def _decode_base64_data (b64decode : List Char → List Nat)
    (zlibDecompress gzipDecompress : List Nat → List Nat)
    (data_text : List Char) (compression : Option String) (layer_width : Nat) :
    Except PyErr (List (List Nat)) := do
  let unencoded_data := b64decode data_text
  let unzipped_data ←
    match compression with
    | some "zlib" => pure (zlibDecompress unencoded_data)
    | some "gzip" => pure (gzipDecompress unencoded_data)
    | none => pure unencoded_data
    | some c =>
        Except.error (.valueError ("Unsupported compression type '" ++ c ++ "'."))
  decodeBytesToGrid unzipped_data layer_width

/-! ### Specification-side layer-data functions

These are the spec's description of the same data (see spec.md §4.3 and
§8): the little-endian serialization that the Tiled editor emits and the
grid the decoder is expected to reconstruct.  They are the comparison
points for the round-trip and characterization theorems, not embeddings
of repository code. -/

/-- The 4-byte little-endian serialization of one 32-bit word. -/
def toLE4 (v : Nat) : List Nat :=
  [v % 256, v / 256 % 256, v / 65536 % 256, v / 16777216 % 256]

/-- Serialization of a grid row-major as consecutive 4-byte LE words,
as the spec says Tiled emits layer data. -/
def serializeGrid (g : List (List Nat)) : List Nat :=
  (g.flatten).flatMap toLE4

/-- Little-endian 32-bit words of a byte stream; trailing bytes beyond the
last complete group of 4 contribute nothing. -/
def toInts : List Nat → List Nat
  | b0 :: b1 :: b2 :: b3 :: rest =>
      (b0 + b1 * 256 + b2 * 65536 + b3 * 16777216) :: toInts rest
  | _ => []

/-- Rows obtained by appending `ints` to the partial row `cur` (which holds
the `ic % w`-th … integers of the stream), closing a row every time the
total integer count reaches a multiple of `w`; a trailing partial row is
discarded, mirroring the decoder's final `tile_grid.pop()`. -/
def fillRows (cur : List Nat) (ic w : Nat) : List Nat → List (List Nat)
  | [] => []
  | v :: vs =>
      if (ic + 1) % w = 0 then (cur ++ [v]) :: fillRows [] (ic + 1) w vs
      else fillRows (cur ++ [v]) (ic + 1) w vs

/-- Compression side of the encoding pipeline for the round-trip property:
apply the compressor matching the tag (identity for `none`). -/
def compressWith (zlibCompress gzipCompress : List Nat → List Nat) :
    Option String → List Nat → List Nat
  | some "zlib" => zlibCompress
  | some "gzip" => gzipCompress
  | _ => id

/-- Encoding of a grid as base64 layer data with the given compression,
as described by the spec: serialize row-major as 4-byte LE words,
compress, base64-encode. -/
def encodeGrid (b64encode : List Nat → List Char)
    (zlibCompress gzipCompress : List Nat → List Nat)
    (compression : Option String) (g : List (List Nat)) : List Char :=
  b64encode (compressWith zlibCompress gzipCompress compression (serializeGrid g))

/-- Concrete base64-stand-in used by closed witnesses/counterexamples: a
bijection between byte lists and char lists (one char per byte). -/
def bytesToChars (bs : List Nat) : List Char :=
  bs.map Char.ofNat

/-- Inverse of `bytesToChars` on byte values. -/
def charsToBytes (cs : List Char) : List Nat :=
  cs.map Char.toNat

/-! ### Lemmas about the byte-to-grid loop -/

/-- Appending at index `rows.length` in `rows ++ [cur]` appends to `cur`. -/
theorem appendAtRow_last (rows : List (List Nat)) (cur : List Nat) (v : Nat) :
    appendAtRow (rows ++ [cur]) rows.length v = rows ++ [cur ++ [v]] := by
  induction rows with
  | nil => rfl
  | cons r rs ih => simpa [appendAtRow] using ih

/-- Successor modulo: when `(ic + 1) % w` is not zero it is `ic % w + 1`. -/
theorem succ_mod_of_ne_zero {ic w : Nat} (hw : 0 < w) (h : (ic + 1) % w ≠ 0) :
    (ic + 1) % w = ic % w + 1 := by
  rcases Nat.lt_or_ge (ic % w + 1) w with hlt | hge
  · calc (ic + 1) % w = (ic % w + 1 % w) % w := by rw [Nat.add_mod]
    _ = (ic % w + 1) % w := by rw [Nat.mod_eq_of_lt (by omega : 1 < w)]
    _ = ic % w + 1 := Nat.mod_eq_of_lt hlt
  · exfalso
    have hm : ic % w < w := Nat.mod_lt _ hw
    have heq : ic % w + 1 = w := by omega
    have : (ic + 1) % w = 0 := by
      have : (ic + 1) % w = (ic % w + 1) % w := by
        conv_lhs => rw [← Nat.mod_add_div ic w]
        rw [Nat.add_right_comm, Nat.add_mul_mod_self_left]
      rw [this, heq, Nat.mod_self]
    exact h this

/-- Successor modulo: `(ic + 1) % w = 0` forces `ic % w + 1 = w`. -/
theorem succ_mod_eq_zero {ic w : Nat} (hw : 0 < w) (h : (ic + 1) % w = 0) :
    ic % w + 1 = w := by
  have hm : ic % w < w := Nat.mod_lt _ hw
  by_contra hne
  have h1 : 1 < w := by
    rcases Nat.lt_or_ge 1 w with h' | h'
    · exact h'
    · exfalso; omega
  have : (ic + 1) % w = ic % w + 1 := by
    have hlt : ic % w + 1 < w := by omega
    calc (ic + 1) % w = (ic % w + 1 % w) % w := by rw [Nat.add_mod]
    _ = (ic % w + 1) % w := by rw [Nat.mod_eq_of_lt h1]
    _ = ic % w + 1 := Nat.mod_eq_of_lt hlt
  omega

/-- Unfolding of four loop iterations from a group boundary: starting with
`byte_count = 0` and `int_value = 0`, four bytes assemble the little-endian
word `b0 + b1·2⁸ + b2·2¹⁶ + b3·2²⁴`, append it to the current row, and
either close the row (when `int_count` reaches a multiple of
`layer_width`) or continue it; `layer_width = 0` raises. -/
theorem decodeLoop_four (w : Nat) (ic rc : Nat) (tg : List (List Nat))
    (b0 b1 b2 b3 : Nat) (rest : List Nat) :
    decodeLoop w ⟨0, ic, 0, rc, tg⟩ (b0 :: b1 :: b2 :: b3 :: rest) =
      (if w = 0 then .error .zeroDivisionError
       else if (ic + 1) % w = 0 then
         decodeLoop w ⟨0, ic + 1, 0, rc + 1,
             appendAtRow tg rc (b0 + b1 * 256 + b2 * 65536 + b3 * 16777216) ++ [[]]⟩ rest
       else
         decodeLoop w ⟨0, ic + 1, 0, rc,
             appendAtRow tg rc (b0 + b1 * 256 + b2 * 65536 + b3 * 16777216)⟩ rest) := by
  simp only [decodeLoop, decodeStep, bind, Except.bind]
  norm_num [Nat.shiftLeft_eq]
  ring_nf
  by_cases hw0 : w = 0
  · simp [hw0]
  · by_cases hic : (1 + ic) % w = 0 <;> simp [hw0, hic]

/-- With fewer than four bytes left, the loop never completes an integer:
it terminates successfully without touching `tile_grid`. -/
theorem decodeLoop_short (w : Nat) (ic rc : Nat) (tg : List (List Nat))
    (data : List Nat) (hlen : data.length < 4) :
    ∃ s, decodeLoop w ⟨0, ic, 0, rc, tg⟩ data = .ok s ∧ s.tile_grid = tg := by
  match data, hlen with
  | [], _ => exact ⟨_, rfl, rfl⟩
  | [b0], _ => exact ⟨_, rfl, rfl⟩
  | [b0, b1], _ => exact ⟨_, rfl, rfl⟩
  | [b0, b1, b2], _ => exact ⟨_, rfl, rfl⟩

/-- Main loop invariant: run from a group boundary where the completed
rows are `rows`, the speculative current row is `cur` (the last element of
`tile_grid`, at index `row_count = rows.length`), and `cur.length = ic % w`.
The rows left of the final speculative/partial row are exactly
`rows ++ fillRows cur ic w (toInts data)`. -/
theorem decodeLoop_fillRows (w : Nat) (hw : 0 < w) :
    ∀ (n : Nat) (data : List Nat), data.length ≤ n →
      ∀ (rows : List (List Nat)) (cur : List Nat) (ic : Nat),
        cur.length = ic % w →
        ∃ s, decodeLoop w ⟨0, ic, 0, rows.length, rows ++ [cur]⟩ data = .ok s ∧
             s.tile_grid.dropLast = rows ++ fillRows cur ic w (toInts data) := by
  intro n
  induction n with
  | zero =>
      intro data hlen rows cur ic hcur
      have : data = [] := List.length_eq_zero.mp (Nat.le_zero.mp hlen)
      subst this
      exact ⟨_, rfl, by
        simp [toInts, fillRows]⟩
  | succ n ih =>
      intro data hlen rows cur ic hcur
      match data with
      | [] =>
          exact ⟨_, rfl, by
            simp [toInts, fillRows]⟩
      | [b0] =>
          obtain ⟨s, hs, hg⟩ := decodeLoop_short w ic rows.length (rows ++ [cur]) [b0] (by simp)
          exact ⟨s, hs, by
            simp [hg, toInts, fillRows]⟩
      | [b0, b1] =>
          obtain ⟨s, hs, hg⟩ :=
            decodeLoop_short w ic rows.length (rows ++ [cur]) [b0, b1] (by simp)
          exact ⟨s, hs, by
            simp [hg, toInts, fillRows]⟩
      | [b0, b1, b2] =>
          obtain ⟨s, hs, hg⟩ :=
            decodeLoop_short w ic rows.length (rows ++ [cur]) [b0, b1, b2] (by simp)
          exact ⟨s, hs, by
            simp [hg, toInts, fillRows]⟩
      | b0 :: b1 :: b2 :: b3 :: rest =>
          have hrest : rest.length ≤ n := by
            simp only [List.length_cons] at hlen; omega
          set v := b0 + b1 * 256 + b2 * 65536 + b3 * 16777216 with hv
          rw [decodeLoop_four w ic rows.length (rows ++ [cur]) b0 b1 b2 b3 rest]
          rw [if_neg (by omega : ¬ w = 0)]
          rw [appendAtRow_last rows cur v]
          by_cases hic : (ic + 1) % w = 0
          · rw [if_pos hic]
            have hrc : rows.length + 1 = (rows ++ [cur ++ [v]]).length := by simp
            rw [hrc]
            obtain ⟨s, hs, hg⟩ := ih rest hrest (rows ++ [cur ++ [v]]) [] (ic + 1)
              (by simp [hic])
            refine ⟨s, hs, ?_⟩
            rw [hg, toInts, fillRows, if_pos hic]
            simp
          · rw [if_neg hic]
            obtain ⟨s, hs, hg⟩ := ih rest hrest rows (cur ++ [v]) (ic + 1)
              (by rw [succ_mod_of_ne_zero hw hic, ← hcur]; simp)
            refine ⟨s, hs, ?_⟩
            rw [hg, toInts, fillRows, if_neg hic]

/-- Characterization of the byte-to-grid phase for a positive declared
width: it never raises, and returns exactly the completed rows of the
little-endian 32-bit words of the stream — trailing bytes beyond a
multiple of 4 and a trailing partial row are silently discarded. -/
theorem decodeBytesToGrid_eq (data : List Nat) (w : Nat) (hw : 0 < w) :
    decodeBytesToGrid data w = .ok (fillRows [] 0 w (toInts data)) := by
  obtain ⟨s, hs, hg⟩ :=
    decodeLoop_fillRows w hw data.length data le_rfl [] [] 0 (by simp)
  unfold decodeBytesToGrid
  rw [show (⟨0, 0, 0, 0, [[]]⟩ : DecodeState)
        = ⟨0, 0, 0, ([] : List (List Nat)).length, [] ++ [[]]⟩ from rfl, hs]
  show Except.ok s.tile_grid.dropLast = Except.ok (fillRows [] 0 w (toInts data))
  rw [hg]
  simp

/-- With `layer_width = 0` the loop either raises `ZeroDivisionError` (as
Python's `%` does) or — when no integer ever completes — leaves the grid
untouched. -/
theorem decodeLoop_width_zero (data : List Nat) :
    ∀ s : DecodeState,
      decodeLoop 0 s data = .error .zeroDivisionError ∨
      ∃ s', decodeLoop 0 s data = .ok s' ∧ s'.tile_grid = s.tile_grid := by
  induction data with
  | nil => exact fun s => .inr ⟨s, rfl, rfl⟩
  | cons b bs ih =>
      intro s
      by_cases h4 : (s.byte_count + 1) % 4 = 0
      · left
        simp [decodeLoop, decodeStep, h4, bind, Except.bind]
      · have hstep : decodeStep 0 s b =
            .ok ⟨s.byte_count + 1, s.int_count,
                 s.int_value + (b <<< (s.byte_count * 8)), s.row_count, s.tile_grid⟩ := by
          simp [decodeStep, h4]
        rcases ih ⟨s.byte_count + 1, s.int_count,
            s.int_value + (b <<< (s.byte_count * 8)), s.row_count, s.tile_grid⟩ with h | ⟨s', h, hg⟩
        · left
          simp [decodeLoop, hstep, h, bind, Except.bind]
        · right
          exact ⟨s', by simp [decodeLoop, hstep, h, bind, Except.bind], hg⟩

/-- Reading back the 4-byte little-endian serialization of a word below
`2³²` recovers the word. -/
theorem toInts_toLE4 (v : Nat) (hv : v < 4294967296) (rest : List Nat) :
    toInts (toLE4 v ++ rest) = v :: toInts rest := by
  simp only [toLE4, List.cons_append, List.nil_append, toInts]
  congr 1
  omega

/-- Reading back the concatenated serialization of a word list recovers
the list. -/
theorem toInts_flatMap_toLE4 (l : List Nat) (hl : ∀ v ∈ l, v < 4294967296) :
    toInts (l.flatMap toLE4) = l := by
  induction l with
  | nil => rfl
  | cons v vs ih =>
      rw [List.flatMap_cons, toInts_toLE4 v (hl v (by simp)) (vs.flatMap toLE4),
        ih (fun u hu => hl u (by simp [hu]))]

/-- Feeding `fillRows` one full row closes exactly that row. -/
theorem fillRows_row (w : Nat) (hw : 0 < w) :
    ∀ (row : List Nat) (rest cur : List Nat) (ic : Nat),
      cur.length = ic % w → cur.length + row.length = w →
      fillRows cur ic w (row ++ rest) = (cur ++ row) :: fillRows [] (ic + row.length) w rest := by
  intro row
  induction row with
  | nil =>
      intro rest cur ic hcur hfull
      exfalso
      have hlt : ic % w < w := Nat.mod_lt _ hw
      simp only [List.length_nil, Nat.add_zero] at hfull
      omega
  | cons v vs ih =>
      intro rest cur ic hcur hfull
      by_cases hic : (ic + 1) % w = 0
      · have hvs : vs = [] := by
          have := succ_mod_eq_zero hw hic
          have : vs.length = 0 := by simp at hfull; omega
          exact List.length_eq_zero.mp this
        subst hvs
        simp only [List.cons_append, List.nil_append, fillRows, if_pos hic]
        simp
      · have hvs : vs ≠ [] := by
          intro h
          subst h
          have : ic % w + 1 = w := by simp at hfull; omega
          have : (ic + 1) % w = 0 := by
            have h1 : (ic + 1) % w = (ic % w + 1) % w := by
              conv_lhs => rw [← Nat.mod_add_div ic w]
              rw [Nat.add_right_comm, Nat.add_mul_mod_self_left]
            rw [h1, this, Nat.mod_self]
          exact hic this
        simp only [List.cons_append, fillRows, if_neg hic, List.append_eq]
        rw [ih rest (cur ++ [v]) (ic + 1)
          (by rw [succ_mod_of_ne_zero hw hic]; simp [hcur])
          (by simp at hfull ⊢; omega)]
        simp only [List.append_assoc, List.singleton_append, List.length_cons]
        congr 2
        omega

/-- Feeding `fillRows` the row-major flattening of a rectangular grid of
width `w` reconstructs the grid. -/
theorem fillRows_flatten (w : Nat) (hw : 0 < w) :
    ∀ (g : List (List Nat)) (ic : Nat), ic % w = 0 → (∀ r ∈ g, r.length = w) →
      fillRows [] ic w g.flatten = g := by
  intro g
  induction g with
  | nil => intro ic _ _; rfl
  | cons r rs ih =>
      intro ic hic hrect
      rw [List.flatten_cons,
        fillRows_row w hw r (rs.flatten) [] ic (by simpa using hic.symm)
          (by simpa using hrect r (by simp)),
        List.nil_append]
      rw [ih (ic + r.length) ?_ (fun r' hr' => hrect r' (by simp [hr']))]
      rw [hrect r (by simp), Nat.add_mod, hic, Nat.mod_self]
      simp

/-- Each word assembled from four bytes of a byte stream is below `2³²`. -/
theorem toInts_lt (data : List Nat) (hb : ∀ b ∈ data, b < 256) :
    ∀ v ∈ toInts data, v < 4294967296 := by
  have main : ∀ (n : Nat) (l : List Nat), l.length ≤ n → (∀ b ∈ l, b < 256) →
      ∀ v ∈ toInts l, v < 4294967296 := by
    intro n
    induction n with
    | zero =>
        intro l hlen _ v hv
        have : l = [] := List.length_eq_zero.mp (Nat.le_zero.mp hlen)
        subst this
        simp [toInts] at hv
    | succ n ih =>
        intro l hlen hbl v hv
        match l with
        | [] => simp [toInts] at hv
        | [b0] => simp [toInts] at hv
        | [b0, b1] => simp [toInts] at hv
        | [b0, b1, b2] => simp [toInts] at hv
        | b0 :: b1 :: b2 :: b3 :: rest =>
            rw [toInts] at hv
            rcases List.mem_cons.mp hv with h | h
            · have h0 := hbl b0 (by simp)
              have h1 := hbl b1 (by simp)
              have h2 := hbl b2 (by simp)
              have h3 := hbl b3 (by simp)
              omega
            · refine ih rest ?_ (fun b hmem => hbl b (by simp [hmem])) v h
              simp only [List.length_cons] at hlen
              omega
  exact main data.length data le_rfl hb

/-- Every value in a row produced by `fillRows` comes from the partial row
or from the integer stream. -/
theorem fillRows_mem (w : Nat) :
    ∀ (ints cur : List Nat) (ic : Nat) (r : List Nat),
      r ∈ fillRows cur ic w ints → ∀ v ∈ r, v ∈ cur ∨ v ∈ ints := by
  intro ints
  induction ints with
  | nil => intro cur ic r hr; simp [fillRows] at hr
  | cons i is ih =>
      intro cur ic r hr v hv
      rw [fillRows] at hr
      by_cases hic : (ic + 1) % w = 0
      · rw [if_pos hic] at hr
        rcases List.mem_cons.mp hr with h | h
        · subst h
          rcases List.mem_append.mp hv with h' | h'
          · exact .inl h'
          · exact .inr (List.mem_cons.mpr (.inl (by simpa using h')))
        · rcases ih [] (ic + 1) r h v hv with h' | h'
          · simp at h'
          · exact .inr (List.mem_cons_of_mem _ h')
      · rw [if_neg hic] at hr
        rcases ih (cur ++ [i]) (ic + 1) r hr v hv with h' | h'
        · rcases List.mem_append.mp h' with h'' | h''
          · exact .inl h''
          · exact .inr (List.mem_cons.mpr (.inl (by simpa using h'')))
        · exact .inr (List.mem_cons_of_mem _ h')

/-- Every row produced by `fillRows` from a consistent partial row has
exactly the declared width. -/
theorem fillRows_length (w : Nat) (hw : 0 < w) :
    ∀ (ints cur : List Nat) (ic : Nat), cur.length = ic % w →
      ∀ r ∈ fillRows cur ic w ints, r.length = w := by
  intro ints
  induction ints with
  | nil => intro cur ic _ r hr; simp [fillRows] at hr
  | cons i is ih =>
      intro cur ic hcur r hr
      rw [fillRows] at hr
      by_cases hic : (ic + 1) % w = 0
      · rw [if_pos hic] at hr
        rcases List.mem_cons.mp hr with h | h
        · subst h
          have := succ_mod_eq_zero hw hic
          simp [hcur]
          omega
        · exact ih [] (ic + 1) (by simp [hic]) r h
      · rw [if_neg hic] at hr
        exact ih (cur ++ [i]) (ic + 1)
          (by rw [succ_mod_of_ne_zero hw hic]; simp [hcur]) r hr

/-! ### A concrete invertible byte-list/text codec for closed witnesses

The round-trip theorem takes the base64 codec abstractly with the
hypothesis that decoding inverts encoding; these unary encoders give a
concrete pair satisfying that hypothesis on **all** byte lists, so closed
witnesses can instantiate it. -/

/-- Encode one byte as a unary run of `x` closed by `y`. -/
def natToChars (b : Nat) : List Char :=
  List.replicate b 'x' ++ ['y']

/-- Encode a byte list by concatenating unary runs. -/
def natsToChars (bs : List Nat) : List Char :=
  bs.flatMap natToChars

/-- Decode unary runs, accumulating the current run length in `k`. -/
def charsToNatsAux (k : Nat) : List Char → List Nat
  | [] => []
  | c :: rest => if c = 'y' then k :: charsToNatsAux 0 rest else charsToNatsAux (k + 1) rest

/-- Decode a unary-run encoding back to the byte list. -/
def charsToNats (cs : List Char) : List Nat :=
  charsToNatsAux 0 cs

/-- Decoding one unary run yields `k + b` and continues. -/
theorem charsToNatsAux_run (b : Nat) (rest : List Char) :
    ∀ k, charsToNatsAux k (List.replicate b 'x' ++ 'y' :: rest)
      = (k + b) :: charsToNatsAux 0 rest := by
  induction b with
  | zero => intro k; simp [charsToNatsAux]
  | succ b ih =>
      intro k
      rw [List.replicate_succ, List.cons_append, charsToNatsAux]
      rw [if_neg (by decide), ih (k + 1)]
      congr 1
      omega

/-- The unary codec round-trips on every byte list. -/
theorem charsToNats_natsToChars (bs : List Nat) :
    charsToNats (natsToChars bs) = bs := by
  unfold charsToNats
  induction bs with
  | nil => rfl
  | cons b rest ih =>
      unfold natsToChars at ih ⊢
      rw [List.flatMap_cons, natToChars, List.append_assoc, List.singleton_append,
        charsToNatsAux_run b _ 0, ih, Nat.zero_add]

/-! ### Claim theorems: base64 decoding (C1, C2, C6, C10) -/

/-- C1 counterexample: the claim quantifies over every rectangular grid of
non-negative 32-bit integers with at least one row, which includes the
one-row, zero-column grid `[[]]` at `declared_width = 0`.  Encoding it
(serialization is empty, compression `none`) and decoding it returns `[]`:
the original row is lost, so the result does not have the original number
of rows. -/
theorem decode_encode_zero_width_loses_row :
    _decode_base64_data charsToBytes id id
        (encodeGrid bytesToChars id id Option.none [[]]) Option.none 0
      = .ok ([] : List (List Nat)) ∧
    ([] : List (List Nat)) ≠ [[]] :=
  ⟨rfl, by simp⟩

/-- C1 (amended with `0 < declared_width`): for every rectangular grid of
32-bit words with at least one row and at least one column, encoding the
grid (row-major 4-byte little-endian words, then compression none, zlib or
gzip, then base64) and decoding with `_decode_base64_data` at the declared
width yields the original grid — in particular the speculative trailing
empty row is dropped, so the result has exactly the original rows.  The
stdlib codecs enter abstractly, assumed only to invert each other. -/
theorem decode_encode_roundtrip
    (b64encode : List Nat → List Char) (b64decode : List Char → List Nat)
    (zlibC zlibD gzipC gzipD : List Nat → List Nat)
    (hb : ∀ bs, b64decode (b64encode bs) = bs)
    (hz : ∀ bs, zlibD (zlibC bs) = bs)
    (hgz : ∀ bs, gzipD (gzipC bs) = bs)
    (grid : List (List Nat)) (w : Nat) (hw : 0 < w) (_hrows : grid ≠ [])
    (hrect : ∀ r ∈ grid, r.length = w)
    (hvals : ∀ r ∈ grid, ∀ v ∈ r, v < 4294967296)
    (compression : Option String)
    (hcomp : compression = Option.none ∨ compression = some "zlib"
      ∨ compression = some "gzip") :
    _decode_base64_data b64decode zlibD gzipD
        (encodeGrid b64encode zlibC gzipC compression grid) compression w
      = .ok grid := by
  have hflat : ∀ v ∈ grid.flatten, v < 4294967296 := by
    intro v hv
    obtain ⟨r, hr, hvr⟩ := List.mem_flatten.mp hv
    exact hvals r hr v hvr
  have hser : toInts (serializeGrid grid) = grid.flatten :=
    toInts_flatMap_toLE4 _ hflat
  have hfill : fillRows [] 0 w (toInts (serializeGrid grid)) = grid := by
    rw [hser]
    exact fillRows_flatten w hw grid 0 (Nat.zero_mod w) hrect
  rcases hcomp with h | h | h <;> subst h <;>
    simp [_decode_base64_data, encodeGrid, compressWith, hb, hz, hgz, bind, Except.bind,
      pure, Except.pure, decodeBytesToGrid_eq _ _ hw, hfill]

/-- C1/C2/C6/C10 helper witness instantiation of the round-trip, at the
2×2 grid `[[1, 2], [3, 4294967295]]` with width 2, compression `none`,
through the unary text codec. -/
theorem decode_encode_roundtrip_witness :
    _decode_base64_data charsToNats id id
        (encodeGrid natsToChars id id Option.none [[1, 2], [3, 4294967295]])
        Option.none 2
      = .ok [[1, 2], [3, 4294967295]] :=
  decode_encode_roundtrip natsToChars charsToNats id id id id
    charsToNats_natsToChars (fun _ => rfl) (fun _ => rfl)
    [[1, 2], [3, 4294967295]] 2 (by decide) (by simp)
    (by decide) (by decide) Option.none (.inl rfl)

/-- C2 counterexample: the decoder raises nothing on malformed sizes.
Five decompressed bytes (not a multiple of 4) yield `[[1]]` — the fifth
byte is silently ignored; four bytes at declared width 2 (integer count 1,
not a multiple of 2) yield `[]` — the partial row is silently dropped.
The module defines no `MalformedLayerDataError` class at all. -/
theorem malformed_layer_data_not_rejected :
    _decode_base64_data charsToBytes id id (bytesToChars [1, 0, 0, 0, 5])
        Option.none 1 = .ok [[1]] ∧
    _decode_base64_data charsToBytes id id (bytesToChars [1, 0, 0, 0])
        Option.none 2 = .ok ([] : List (List Nat)) :=
  ⟨rfl, rfl⟩

/-- C2 (amended): for any positive declared width the base64 byte-to-grid
stage never fails: it returns exactly the completed rows of the stream's
little-endian words — decompressed bytes beyond the last multiple of 4 are
ignored and a trailing partial row is dropped — and every returned row has
exactly the declared width. -/
theorem decode_malformed_silently_truncates (data : List Nat) (w : Nat) (hw : 0 < w) :
    decodeBytesToGrid data w = .ok (fillRows [] 0 w (toInts data)) ∧
    ∀ r ∈ fillRows [] 0 w (toInts data), r.length = w :=
  ⟨decodeBytesToGrid_eq data w hw,
   fillRows_length w hw (toInts data) [] 0 (by simp)⟩

/-- C2 witness: the amended statement evaluated on five bytes at width 1
(truncation of the fifth byte is visible in the `[[1]]` result). -/
theorem decode_malformed_silently_truncates_witness :
    decodeBytesToGrid [1, 0, 0, 0, 5] 1 = .ok [[1]] ∧ [1] ∈ [[1]] := by
  have h := decode_malformed_silently_truncates [1, 0, 0, 0, 5] 1 (by decide)
  exact ⟨h.1, by simp⟩

/-- C6 counterexample: an unsupported compression tag raises the built-in
`ValueError` (with the source's f-string message), not an
`UnsupportedCompressionError` — no class of that name exists in the
module, as the `PyErr` type of this embedding records. -/
theorem unsupported_compression_is_builtin_valueerror :
    _decode_base64_data charsToBytes id id [] (some "lz4") 1
      = .error (.valueError "Unsupported compression type 'lz4'.") :=
  rfl

/-- C6 (amended): compression dispatch of `_decode_base64_data` — `none`
uses the base64-decoded bytes as-is, `"zlib"` and `"gzip"` route them
through the corresponding decompressor, and every other tag fails with the
built-in `ValueError` naming the tag (the module defines no
`UnsupportedCompressionError`). -/
theorem compression_dispatch (b64d : List Char → List Nat)
    (zd gd : List Nat → List Nat) (text : List Char) (w : Nat) :
    _decode_base64_data b64d zd gd text Option.none w
        = decodeBytesToGrid (b64d text) w ∧
    _decode_base64_data b64d zd gd text (some "zlib") w
        = decodeBytesToGrid (zd (b64d text)) w ∧
    _decode_base64_data b64d zd gd text (some "gzip") w
        = decodeBytesToGrid (gd (b64d text)) w ∧
    ∀ tag : String, tag ≠ "zlib" → tag ≠ "gzip" →
      _decode_base64_data b64d zd gd text (some tag) w
        = .error (.valueError ("Unsupported compression type '" ++ tag ++ "'.")) := by
  refine ⟨rfl, rfl, rfl, ?_⟩
  intro tag h1 h2
  simp only [_decode_base64_data]
  rfl

/-- C6 witness: the dispatch theorem applied at the tag `"lzma"`. -/
theorem compression_dispatch_witness :
    _decode_base64_data charsToBytes id id [] (some "lzma") 3
      = .error (.valueError "Unsupported compression type 'lzma'.") :=
  (compression_dispatch charsToBytes id id [] 3).2.2.2 "lzma"
    (by decide) (by decide)

/-- C10 (confirmed): any grid returned by the base64 byte-to-grid stage on
a stream of bytes has all its values in `[0, 2³²)`: each value is
assembled from exactly 4 bytes shifted by 0, 8, 16 and 24 bits (values
are `Nat`, hence non-negative by construction). -/
theorem decoded_values_are_uint32 (data : List Nat) (w : Nat)
    (g : List (List Nat)) (hb : ∀ b ∈ data, b < 256)
    (hok : decodeBytesToGrid data w = .ok g) :
    ∀ r ∈ g, ∀ v ∈ r, v < 4294967296 := by
  rcases Nat.eq_zero_or_pos w with hw | hw
  · subst hw
    rcases decodeLoop_width_zero data ⟨0, 0, 0, 0, [[]]⟩ with h | ⟨s, h, hgrid⟩
    · rw [decodeBytesToGrid, h] at hok
      exact absurd hok (by simp [bind, Except.bind])
    · rw [decodeBytesToGrid, h] at hok
      simp only [bind, Except.bind, hgrid] at hok
      have : g = [] := by
        have h' := (Except.ok.injEq _ _).mp hok
        simp at h'
        exact h'
      subst this
      simp
  · rw [decodeBytesToGrid_eq data w hw] at hok
    have hg : g = fillRows [] 0 w (toInts data) :=
      ((Except.ok.injEq _ _).mp hok).symm
    subst hg
    intro r hr v hv
    rcases fillRows_mem w (toInts data) [] 0 r hr v hv with h | h
    · simp at h
    · exact toInts_lt data hb v h

/-- C10 witness: four `0xFF` bytes at width 1 decode to the maximal
32-bit value, which the theorem bounds. -/
theorem decoded_values_are_uint32_witness : (4294967295 : Nat) < 4294967296 :=
  decoded_values_are_uint32 [255, 255, 255, 255] 1 [[4294967295]]
    (by decide) rfl [4294967295] (by simp) 4294967295 (by simp)

/-! ### Lemmas about `pySplit` and the CSV decoder -/

/-- Python `split` never returns an empty fragment list. -/
theorem pySplit_ne_nil (sep : Char) (l : List Char) : pySplit sep l ≠ [] := by
  cases l with
  | nil => simp [pySplit]
  | cons c rest =>
      rw [pySplit]
      rcases h : pySplit sep rest with _ | ⟨grp, grps⟩
      · simp
      · by_cases hc : c = sep <;> simp [hc]

/-- Splitting a separator-free fragment returns just that fragment. -/
theorem pySplit_no_sep (sep : Char) (l : List Char) (h : sep ∉ l) :
    pySplit sep l = [l] := by
  induction l with
  | nil => rfl
  | cons c rest ih =>
      rw [pySplit, ih (fun hmem => h (List.mem_cons_of_mem _ hmem))]
      have hc : ¬ c = sep := fun hc => h (by simp [hc])
      simp [hc]

/-- Splitting a fragment followed by a separator and a tail prepends the
fragment to the split of the tail. -/
theorem pySplit_append_cons (sep : Char) (l rest : List Char) (h : sep ∉ l) :
    pySplit sep (l ++ sep :: rest) = l :: pySplit sep rest := by
  induction l with
  | nil =>
      rw [List.nil_append, pySplit]
      rcases hr : pySplit sep rest with _ | ⟨grp, grps⟩
      · exact absurd hr (pySplit_ne_nil sep rest)
      · simp
  | cons c l' ih =>
      rw [List.cons_append, pySplit,
        ih (fun hmem => h (List.mem_cons_of_mem _ hmem))]
      have hc : ¬ c = sep := fun hc => h (by simp [hc])
      simp [hc]

/-- Inverse construction for `pySplit`: join fragments with a separator. -/
def joinWith (sep : α) : List (List α) → List α
  | [] => []
  | [l] => l
  | l :: ls => l ++ sep :: joinWith sep ls

/-- Splitting a joined fragment list recovers the fragments (Python's
`sep.join(parts).split(sep) == parts` for non-empty `parts` without
embedded separators). -/
theorem pySplit_joinWith (sep : Char) :
    ∀ (lines : List (List Char)), lines ≠ [] → (∀ l ∈ lines, sep ∉ l) →
      pySplit sep (joinWith sep lines) = lines := by
  intro lines
  induction lines with
  | nil => intro h; exact absurd rfl h
  | cons l ls ih =>
      intro _ hsep
      cases ls with
      | nil => exact pySplit_no_sep sep l (hsep l (by simp))
      | cons l2 ls' =>
          have hne : l2 :: ls' ≠ [] := List.cons_ne_nil _ _
          have hih := ih hne (fun l' hl' => hsep l' (List.mem_cons_of_mem _ hl'))
          rw [joinWith, pySplit_append_cons sep l _ (hsep l (by simp)), hih]
          exact fun h => List.noConfusion h

/-- Appending a trailing separator appends one empty fragment. -/
theorem pySplit_trailing_sep (sep : Char) (l : List Char) :
    pySplit sep (l ++ [sep]) = pySplit sep l ++ [[]] := by
  induction l with
  | nil => simp [pySplit]
  | cons c l' ih =>
      rw [List.cons_append, pySplit, ih, pySplit]
      rcases h : pySplit sep l' with _ | ⟨grp, grps⟩
      · exact absurd h (pySplit_ne_nil sep l')
      · by_cases hc : c = sep <;> simp [hc]

/-- Removing empties commutes past a trailing empty fragment. -/
theorem pyRemoveEmpties_trailing (xs : List (List Char)) :
    pyRemoveEmpties (xs ++ [[]]) = pyRemoveEmpties xs := by
  induction xs with
  | nil => rfl
  | cons x xs' ih =>
      rw [List.cons_append, pyRemoveEmpties, pyRemoveEmpties]
      by_cases hx : x = [] <;> simp [hx, ih]

/-- A successful `mapExcept` returns one output per input. -/
theorem mapExcept_ok_length (f : α → Except PyErr β) :
    ∀ (l : List α) (g : List β), mapExcept f l = .ok g → g.length = l.length := by
  intro l
  induction l with
  | nil =>
      intro g hg
      rw [mapExcept] at hg
      cases hg
      rfl
  | cons a as ih =>
      intro g hg
      rw [mapExcept] at hg
      rcases hfa : f a with e | b <;> rw [hfa] at hg
      · exact absurd hg (by simp [bind, Except.bind])
      · simp only [bind, Except.bind] at hg
        rcases hrest : mapExcept f as with e | bs <;> rw [hrest] at hg
        · simp at hg
        · injection hg with h'
          subst h'
          simp [ih bs hrest]

/-! ### Claim theorems: CSV decoding (C5) -/

/-- C5 counterexample: the payload `"1,2\n"` has exactly one non-empty
line, but the decoder returns two rows — the empty line after the trailing
newline contributes an empty row (the source loops over **all** lines).
The claim's "empty lines contribute no row" is false on the code. -/
theorem csv_empty_line_produces_row :
    _decode_csv_layer "1,2\n".toList = .ok [[1, 2], []] ∧
    (pyRemoveEmpties (pySplit '\n' "1,2\n".toList)).length = 1 ∧
    ([[1, 2], []] : List (List Int)).length ≠ 1 :=
  ⟨rfl, rfl, by decide⟩

/-- C5 (amended): the CSV decoder produces exactly one row per line —
empty lines contribute an **empty** row; within each line it splits on
comma, drops empty tokens (so a trailing comma adds no phantom entry, the
third conjunct), and parses each remaining token with `int(...)`.  The
first conjunct characterizes the decoder on a payload assembled from
newline-free lines; the second gives the row-per-line count. -/
theorem csv_decode_row_per_line (lines : List (List Char)) (hne : lines ≠ [])
    (hnl : ∀ l ∈ lines, '\n' ∉ l) :
    _decode_csv_layer (joinWith '\n' lines)
        = mapExcept
            (fun line => mapExcept pyIntDec (pyRemoveEmpties (pySplit ',' line)))
            lines ∧
    (∀ g, _decode_csv_layer (joinWith '\n' lines) = .ok g →
        g.length = lines.length) ∧
    ∀ line : List Char,
      pyRemoveEmpties (pySplit ',' (line ++ [',']))
        = pyRemoveEmpties (pySplit ',' line) := by
  have h1 : _decode_csv_layer (joinWith '\n' lines)
      = mapExcept
          (fun line => mapExcept pyIntDec (pyRemoveEmpties (pySplit ',' line)))
          lines := by
    rw [_decode_csv_layer, pySplit_joinWith '\n' lines hne hnl]
  refine ⟨h1, ?_, ?_⟩
  · intro g hg
    rw [h1] at hg
    exact mapExcept_ok_length _ lines g hg
  · intro line
    rw [pySplit_trailing_sep, pyRemoveEmpties_trailing]

/-- C5 witness: the amended characterization evaluated on the two-line
payload `"1,2\n3"`. -/
theorem csv_decode_row_per_line_witness :
    _decode_csv_layer "1,2\n3".toList = .ok [[1, 2], [3]] := by
  have h := csv_decode_row_per_line ["1,2".toList, "3".toList]
    (by decide) (by decide)
  exact h.1

/-! ### Claim theorems: color parsing (C7, C8) -/

/-- Value of the two-hex-digit slice `cs[i:i+2]`, the byte components the
spec reads out of a color string. -/
def hexPair (cs : List Char) (i : Nat) : Nat :=
  hexVal (pySlice cs i (i + 2))

/-- Parsing two hex digits succeeds with their base-16 value. -/
theorem pyIntHex_pair (a b : Char) (ha : isHexDigitChar a) (hb : isHexDigitChar b) :
    pyIntHex [a, b] = .ok (hexVal [a, b]) := by
  rw [pyIntHex, if_neg (by simp), if_pos (by simp [ha, hb])]

/-- C7 (confirmed): on a string of 6 or 8 hex digits, with or without a
leading `#` (stripped exactly when the total length is odd), `_parse_color`
returns the component bytes — `RRGGBB` with alpha forced to `0xFF` for
length 6, `AARRGGBB` for length 8.  In particular
`parse_color "#001122" = (0x00, 0x11, 0x22, 0xFF)` and
`parse_color "FF001122" = (0x00, 0x11, 0x22, 0xFF)` (see the witness). -/
theorem parse_color_valid (cs : List Char) (hhex : ∀ c ∈ cs, isHexDigitChar c) :
    (cs.length = 6 →
      _parse_color cs = .ok ⟨hexPair cs 0, hexPair cs 2, hexPair cs 4, 255⟩ ∧
      _parse_color ('#' :: cs)
        = .ok ⟨hexPair cs 0, hexPair cs 2, hexPair cs 4, 255⟩) ∧
    (cs.length = 8 →
      _parse_color cs
        = .ok ⟨hexPair cs 2, hexPair cs 4, hexPair cs 6, hexPair cs 0⟩ ∧
      _parse_color ('#' :: cs)
        = .ok ⟨hexPair cs 2, hexPair cs 4, hexPair cs 6, hexPair cs 0⟩) := by
  constructor
  · intro h6
    match cs, hhex, h6 with
    | [c0, c1, c2, c3, c4, c5], hhex, _ =>
        have h0 : isHexDigitChar c0 := hhex _ (by simp)
        have h1 : isHexDigitChar c1 := hhex _ (by simp)
        have h2 : isHexDigitChar c2 := hhex _ (by simp)
        have h3 : isHexDigitChar c3 := hhex _ (by simp)
        have h4 : isHexDigitChar c4 := hhex _ (by simp)
        have h5 : isHexDigitChar c5 := hhex _ (by simp)
        constructor <;>
          simp [_parse_color, pySlice, hexPair, pyIntHex_pair, h0, h1, h2, h3, h4, h5,
            bind, Except.bind]
  · intro h8
    match cs, hhex, h8 with
    | [c0, c1, c2, c3, c4, c5, c6, c7], hhex, _ =>
        have h0 : isHexDigitChar c0 := hhex _ (by simp)
        have h1 : isHexDigitChar c1 := hhex _ (by simp)
        have h2 : isHexDigitChar c2 := hhex _ (by simp)
        have h3 : isHexDigitChar c3 := hhex _ (by simp)
        have h4 : isHexDigitChar c4 := hhex _ (by simp)
        have h5 : isHexDigitChar c5 := hhex _ (by simp)
        have h6 : isHexDigitChar c6 := hhex _ (by simp)
        have h7 : isHexDigitChar c7 := hhex _ (by simp)
        constructor <;>
          simp [_parse_color, pySlice, hexPair, pyIntHex_pair,
            h0, h1, h2, h3, h4, h5, h6, h7, bind, Except.bind]

/-- C7 witness: the spec's two examples, via `parse_color_valid`. -/
theorem parse_color_valid_witness :
    _parse_color "#001122".toList = .ok ⟨0x00, 0x11, 0x22, 0xFF⟩ ∧
    _parse_color "FF001122".toList = .ok ⟨0x00, 0x11, 0x22, 0xFF⟩ := by
  constructor
  · exact ((parse_color_valid "001122".toList (by decide)).1 rfl).2
  · exact ((parse_color_valid "FF001122".toList (by decide)).2 rfl).1

/-- C8 counterexample: a string of 7 hex digits does **not** fail — the
odd length strips the first digit and the remaining 6 parse as `RRGGBB`:
`parse_color "1234567" = (0x23, 0x45, 0x67, 0xFF)`.  (No `ColorFormatError`
class exists in the module at all.) -/
theorem parse_color_seven_digits_succeeds :
    _parse_color "1234567".toList = .ok ⟨0x23, 0x45, 0x67, 0xFF⟩ :=
  rfl

/-- C8 (amended): `_parse_color` performs no length validation and the
module defines no `ColorFormatError`.  A malformed length surfaces, if at
all, as the built-in `ValueError` raised by `int(_, 16)` on an empty
slice — so every 5-hex-digit string raises `ValueError` — while a
7-hex-digit string parses successfully as `RRGGBB` of its last 6 digits. -/
theorem parse_color_malformed (cs : List Char) (hhex : ∀ c ∈ cs, isHexDigitChar c) :
    (cs.length = 5 →
      _parse_color cs
        = .error (.valueError "invalid literal for int() with base 16: ")) ∧
    (cs.length = 7 →
      _parse_color cs
        = .ok ⟨hexPair (cs.drop 1) 0, hexPair (cs.drop 1) 2,
               hexPair (cs.drop 1) 4, 255⟩) := by
  constructor
  · intro h5
    match cs, hhex, h5 with
    | [c0, c1, c2, c3, c4], hhex, _ =>
        have h1 : isHexDigitChar c1 := hhex _ (by simp)
        have h2 : isHexDigitChar c2 := hhex _ (by simp)
        have h3 : isHexDigitChar c3 := hhex _ (by simp)
        have h4 : isHexDigitChar c4 := hhex _ (by simp)
        simp [_parse_color, pySlice, pyIntHex_pair, h1, h2, h3, h4,
          bind, Except.bind, pyIntHex, String.mk]
  · intro h7
    match cs, hhex, h7 with
    | [c0, c1, c2, c3, c4, c5, c6], hhex, _ =>
        have h1 : isHexDigitChar c1 := hhex _ (by simp)
        have h2 : isHexDigitChar c2 := hhex _ (by simp)
        have h3 : isHexDigitChar c3 := hhex _ (by simp)
        have h4 : isHexDigitChar c4 := hhex _ (by simp)
        have h5 : isHexDigitChar c5 := hhex _ (by simp)
        have h6 : isHexDigitChar c6 := hhex _ (by simp)
        simp [_parse_color, pySlice, hexPair, pyIntHex_pair, h1, h2, h3, h4, h5, h6,
          bind, Except.bind]

/-- C8 witness: the amended statement evaluated at `"12345"` (raises
`ValueError`) and `"1234567"` (parses, eating the first digit). -/
theorem parse_color_malformed_witness :
    _parse_color "12345".toList
        = .error (.valueError "invalid literal for int() with base 16: ") ∧
    _parse_color "1234567".toList = .ok ⟨0x23, 0x45, 0x67, 0xFF⟩ := by
  constructor
  · exact (parse_color_malformed "12345".toList (by decide)).1 rfl
  · exact (parse_color_malformed "1234567".toList (by decide)).2 rfl

/-! ### TilesetCatalog: gid resolution (C3) and the external-tileset cache (C4) -/

/-- Embedding of `tiled.TileSet` restricted to the fields that tileset
resolution consults (`tilecount`, plus `name`/`columns` for identity in
examples); the source dataclass's remaining fields (tile sizes, spacing,
margin, images, tiles, …) play no role in gid resolution. -/
structure TileSetM where
  name : String
  tilecount : Option Nat
  columns : Option Nat
  deriving DecidableEq, Repr

/-- One step of the qualifying-reference scan of `tile_for_global_id`:
keep the qualifying reference (`first_global_id ≤ gid`) with the greatest
`first_global_id`; the incumbent wins ties. -/
def bestStep (gid : Nat) (acc : Option (Nat × TileSetM)) (p : Nat × TileSetM) :
    Option (Nat × TileSetM) :=
  if p.1 ≤ gid then
    match acc with
    | none => some p
    | some q => if q.1 < p.1 then some p else some q
  else acc

/-- Scan of the `(first_global_id, tileset)` pairs for the best
qualifying reference. -/
def bestRef (gid : Nat) (tile_sets : List (Nat × TileSetM)) :
    Option (Nat × TileSetM) :=
  tile_sets.foldl (bestStep gid) none

/-- Modelled from the spec: the operation `tile_for_global_id` of spec
§4.4 is absent from `tiled.py` — `parse_tile_map` (lines 906–929) only
records `tile_sets[firstgid] = tileset`, and `TileNotFoundError` (lines
23–26) is declared but never raised anywhere in the source.  Following
the spec's words: gid 0 is reserved for "no tile" and must fail; among
all refs with `first_global_id ≤ gid` the greatest `first_global_id`
wins and `local_id = gid - first_global_id`; fail when no ref qualifies
or when `tile_count` is known and the local id is out of bounds. -/
def tile_for_global_id (tile_sets : List (Nat × TileSetM)) (gid : Nat) :
    Except PyErr (TileSetM × Nat) :=
  if gid = 0 then
    .error (.tileNotFoundError "global id 0 is reserved for empty")
  else
    match bestRef gid tile_sets with
    | none => .error (.tileNotFoundError "no tileset for global id")
    | some (first, ts) =>
        let local_id := gid - first
        match ts.tilecount with
        | some n =>
            if local_id < n then .ok (ts, local_id)
            else .error (.tileNotFoundError "local id out of bounds")
        | none => .ok (ts, local_id)

/-- A scan over references none of which qualifies leaves the accumulator
unchanged. -/
theorem bestRef_fold_none (gid : Nat) :
    ∀ (refs : List (Nat × TileSetM)) (acc : Option (Nat × TileSetM)),
      (∀ p ∈ refs, ¬ p.1 ≤ gid) →
      refs.foldl (bestStep gid) acc = acc := by
  intro refs
  induction refs with
  | nil => intro acc _; rfl
  | cons p rest ih =>
      intro acc h
      rw [List.foldl_cons, show bestStep gid acc p = acc from by
        rw [bestStep.eq_def, if_neg (h p (by simp))]]
      exact ih acc (fun q hq => h q (List.mem_cons_of_mem _ hq))

/-- The scan selects the qualifying reference with the greatest
`first_global_id`, provided ties in `first_global_id` carry the same
tileset. -/
theorem bestRef_fold_max (gid first : Nat) (ts : TileSetM) (hfirst : first ≤ gid) :
    ∀ (refs : List (Nat × TileSetM)) (acc : Option (Nat × TileSetM)),
      ((first, ts) ∈ refs ∨ acc = some (first, ts)) →
      (∀ p ∈ refs, p.1 ≤ gid → p.1 ≤ first) →
      (∀ p ∈ refs, p.1 = first → p.2 = ts) →
      (∀ q, acc = some q → q.1 ≤ first ∧ (q.1 = first → q = (first, ts))) →
      refs.foldl (bestStep gid) acc = some (first, ts) := by
  intro refs
  induction refs with
  | nil =>
      intro acc hmem _ _ _
      rcases hmem with h | h
      · simp at h
      · exact h
  | cons p rest ih =>
      intro acc hmem hmax huniq hacc
      rw [List.foldl_cons]
      have hmax' : ∀ r ∈ rest, r.1 ≤ gid → r.1 ≤ first :=
        fun r hr => hmax r (List.mem_cons_of_mem _ hr)
      have huniq' : ∀ r ∈ rest, r.1 = first → r.2 = ts :=
        fun r hr => huniq r (List.mem_cons_of_mem _ hr)
      have hpts : p.1 = first → p = (first, ts) := by
        intro hpf
        rw [Prod.ext_iff]
        exact ⟨hpf, huniq p (by simp) hpf⟩
      by_cases hq : p.1 ≤ gid
      · have hple : p.1 ≤ first := hmax p (by simp) hq
        rcases acc with _ | q
        · -- acc = none: the new accumulator is p
          rw [show bestStep gid none p = some p from by rw [bestStep.eq_def, if_pos hq]]
          refine ih (some p) ?_ hmax' huniq' ?_
          · rcases hmem with h | h
            · rcases List.mem_cons.mp h with h' | h'
              · exact .inr (by rw [← hpts (by rw [← h'])])
              · exact .inl h'
            · exact absurd h (by simp)
          · intro r hr
            have hrp : r = p := by
              injection hr with h'
              exact h'.symm
            subst hrp
            exact ⟨hple, hpts⟩
        · -- acc = some q
          have hqle := (hacc q rfl).1
          have hqeq := (hacc q rfl).2
          rw [show bestStep gid (some q) p
              = (if q.1 < p.1 then some p else some q) from by
            rw [bestStep.eq_def, if_pos hq]]
          by_cases hlt : q.1 < p.1
          · rw [if_pos hlt]
            refine ih (some p) ?_ hmax' huniq' ?_
            · rcases hmem with h | h
              · rcases List.mem_cons.mp h with h' | h'
                · exact .inr (by rw [← hpts (by rw [← h'])])
                · exact .inl h'
              · -- acc was already (first, ts): then q.1 = first ≥ p.1, contradiction
                exfalso
                injection h with h'
                subst h'
                simp only at hlt
                omega
            · intro r hr
              have hrp : r = p := by
                injection hr with h'
                exact h'.symm
              subst hrp
              exact ⟨hple, hpts⟩
          · rw [if_neg hlt]
            refine ih (some q) ?_ hmax' huniq' ?_
            · rcases hmem with h | h
              · rcases List.mem_cons.mp h with h' | h'
                · -- p is the best ref: q.1 = p.1 = first, so q = (first, ts)
                  have hpf : p.1 = first := by rw [← h']
                  have hqf : q.1 = first := by omega
                  exact .inr (by rw [hqeq hqf])
                · exact .inl h'
              · exact .inr h
            · intro r hr
              have hrq : r = q := by
                injection hr with h'
                exact h'.symm
              subst hrq
              exact ⟨hqle, hqeq⟩
      · rw [show bestStep gid acc p = acc from by rw [bestStep.eq_def, if_neg hq]]
        refine ih acc ?_ hmax' huniq' hacc
        rcases hmem with h | h
        · rcases List.mem_cons.mp h with h' | h'
          · exact absurd (by rw [← h']; exact hfirst) hq
          · exact .inl h'
        · exact .inr h

/-- C3 (confirmed against the spec-modelled resolver): `tile_for_global_id`
never resolves gid 0; fails with `TileNotFoundError` when no reference has
`first_global_id ≤ gid`; and otherwise resolves through the qualifying
reference with the greatest `first_global_id` (assumed unique as dict
keys), returning `local_id = gid - first_global_id` when it is within the
known `tile_count` bound and failing with `TileNotFoundError` when it is
out of bounds (no bound check when `tile_count` is unknown). -/
theorem tile_for_global_id_spec (refs : List (Nat × TileSetM)) :
    tile_for_global_id refs 0
        = .error (.tileNotFoundError "global id 0 is reserved for empty") ∧
    (∀ gid, gid ≠ 0 → (∀ p ∈ refs, gid < p.1) →
      tile_for_global_id refs gid
        = .error (.tileNotFoundError "no tileset for global id")) ∧
    (∀ gid first ts, gid ≠ 0 → (first, ts) ∈ refs → first ≤ gid →
      (∀ p ∈ refs, p.1 ≤ gid → p.1 ≤ first) →
      (∀ p ∈ refs, p.1 = first → p.2 = ts) →
      tile_for_global_id refs gid =
        match ts.tilecount with
        | some n =>
            if gid - first < n then .ok (ts, gid - first)
            else .error (.tileNotFoundError "local id out of bounds")
        | none => .ok (ts, gid - first)) := by
  refine ⟨rfl, ?_, ?_⟩
  · intro gid hgid hnone
    rw [tile_for_global_id, if_neg hgid]
    rw [show bestRef gid refs = none from
      bestRef_fold_none gid refs none (fun p hp => by
        have := hnone p hp
        omega)]
  · intro gid first ts hgid hmem hle hmax huniq
    rw [tile_for_global_id, if_neg hgid]
    rw [show bestRef gid refs = some (first, ts) from
      bestRef_fold_max gid first ts hle refs none (.inl hmem) hmax huniq
        (fun q hq => by exact absurd hq (by simp))]

/-- Tileset of the spec's worked example: `tile_count = 48`,
`columns = 8`. -/
def exampleTileSet : TileSetM :=
  ⟨"example", some 48, some 8⟩

/-- C3 witness: with one tileset at `first_global_id = 1` (the spec's
example map), gid 0 fails and gid 1 resolves to local id 0. -/
theorem tile_for_global_id_spec_witness :
    tile_for_global_id [(1, exampleTileSet)] 0
        = .error (.tileNotFoundError "global id 0 is reserved for empty") ∧
    tile_for_global_id [(1, exampleTileSet)] 1 = .ok (exampleTileSet, 0) := by
  have h := tile_for_global_id_spec [(1, exampleTileSet)]
  refine ⟨h.1, ?_⟩
  have h3 := h.2.2 1 1 exampleTileSet (by decide) (by simp) (by decide)
    (by decide) (by decide)
  simpa [exampleTileSet] using h3

/-- A tileset-reference element (`<tileset source=...>`): `eid` is the
`etree.Element` object identity (each element parsed from a document is a
distinct object), `source` its `source` attribute. -/
structure TilesetElem where
  eid : Nat
  source : String
  deriving DecidableEq, Repr

/-- State of the `functools.lru_cache()` on `_parse_external_tile_set`:
entries keyed by the argument tuple `(parent_dir, element identity)`,
plus a count of actual parses (the spec's "parse-count counter"). -/
structure CatalogState where
  cache : List ((String × Nat) × TileSetM)
  parse_count : Nat
  deriving Repr

/-- Lookup in the lru_cache by exact key equality. -/
def lookupCache (key : String × Nat) :
    List ((String × Nat) × TileSetM) → Option TileSetM
  | [] => none
  | (k, v) :: rest => if k = key then some v else lookupCache key rest

/-- Embedding of `tiled._parse_external_tile_set` (lines 803–814) with its
`@functools.lru_cache()` decorator.  The cache key is the argument tuple
`(parent_dir, tile_set_element)`; a `pathlib.Path` hashes by value but an
`etree.Element` hashes by **object identity** (`eid` here), so two
distinct elements naming the same `source` are distinct keys.  On a miss
the function reads `source` and parses the file (`parseFile` abstracts
`etree.parse` + `_parse_tile_set`); `parse_count` counts those parses. -/
def _parse_external_tile_set (parseFile : String → TileSetM)
    (st : CatalogState) (parent_dir : String) (elem : TilesetElem) :
    TileSetM × CatalogState :=
  let key := (parent_dir, elem.eid)
  match lookupCache key st.cache with
  | some ts => (ts, st)
  | none =>
      let ts := parseFile (parent_dir ++ "/" ++ elem.source)
      (ts, ⟨(key, ts) :: st.cache, st.parse_count + 1⟩)

/-- The external-tileset arm of the `for tile_set_element in ...` loop of
`parse_tile_map` (lines 917–929): resolve each reference element in
document order, threading the cache state. -/
def resolveExternalRefs (parseFile : String → TileSetM) (parent_dir : String) :
    List TilesetElem → CatalogState → List TileSetM × CatalogState
  | [], st => ([], st)
  | e :: es, st =>
      let r := _parse_external_tile_set parseFile st parent_dir e
      let rest := resolveExternalRefs parseFile parent_dir es r.2
      (r.1 :: rest.1, rest.2)

/-- C4 (code bug, evaluated at the failing input): two distinct tileset
reference elements (`eid` 0 and 1) naming the **same** source path
`"tileset.tsx"` are parsed **twice** — the lru_cache key includes the
element's object identity, so the second reference never hits the cache;
the claimed "keyed by canonicalized source path, parsed exactly once" is
false for the code, and the function's own docstring ("Caches the results
to speed up subsequent instances") is unsatisfiable since no two calls
ever share a key.  Re-resolving the *same* element object (second
conjunct) is the only way the cache hits. -/
theorem external_tileset_parsed_twice (parseFile : String → TileSetM) :
    (resolveExternalRefs parseFile "maps"
        [⟨0, "tileset.tsx"⟩, ⟨1, "tileset.tsx"⟩] ⟨[], 0⟩).2.parse_count = 2 ∧
    (resolveExternalRefs parseFile "maps"
        [⟨0, "tileset.tsx"⟩, ⟨0, "tileset.tsx"⟩] ⟨[], 0⟩).2.parse_count = 1 := by
  constructor <;>
    simp [resolveExternalRefs, _parse_external_tile_set, lookupCache]

/-! ### Layer data dispatch: `_parse_data` (C9) -/

/-- A `<data>` element: its `encoding` attribute, optional `compression`
attribute, and text payload. -/
structure DataElem where
  encoding : String
  compression : Option String
  text : List Char
  deriving Repr

/-- Result of parsing layer data (a CSV grid of Python ints or a base64
grid of 32-bit words). -/
inductive ParsedData where
  | csvGrid (g : List (List Int))
  | base64Grid (g : List (List Nat))
  deriving Repr

/-- Modelled from the spec: the body of `tiled._parse_data` is truncated
in the source — after the `csv` branch (lines 567–568, kept here as in
the source) the function ends in a dangling `try:` (line 570), so the
base64 dispatch and the unknown-encoding failure are modelled from spec
§4.3/§7: "Unknown encoding is `EncodingError`", raised with the
`EncodingError` class the module declares at lines 17–20. -/
def _parse_data (b64d : List Char → List Nat) (zd gd : List Nat → List Nat)
    (element : DataElem) (layer_width : Nat) : Except PyErr ParsedData :=
  if element.encoding = "csv" then
    ParsedData.csvGrid <$> _decode_csv_layer element.text
  else if element.encoding = "base64" then
    ParsedData.base64Grid <$>
      _decode_base64_data b64d zd gd element.text element.compression layer_width
  else
    .error (.encodingError ("unknown encoding: " ++ element.encoding))

/-- C9 (confirmed against the spec-modelled dispatch): a `<data>` element
whose encoding tag is neither `csv` nor `base64` fails with
`EncodingError`. -/
theorem unknown_encoding_fails (b64d : List Char → List Nat)
    (zd gd : List Nat → List Nat) (element : DataElem) (w : Nat)
    (h1 : element.encoding ≠ "csv") (h2 : element.encoding ≠ "base64") :
    _parse_data b64d zd gd element w
      = .error (.encodingError ("unknown encoding: " ++ element.encoding)) := by
  rw [_parse_data, if_neg h1, if_neg h2]

/-- C9 witness: `encoding="xml"` (the legacy XML layer format the module's
tests mark as unsupported) fails with `EncodingError`. -/
theorem unknown_encoding_fails_witness :
    _parse_data charsToBytes id id ⟨"xml", Option.none, []⟩ 1
      = .error (.encodingError "unknown encoding: xml") :=
  unknown_encoding_fails charsToBytes id id ⟨"xml", Option.none, []⟩ 1
    (by decide) (by decide)
